import Mathlib

/-!
Verification of the page-extraction core of cmd/gen-books-2/page.go:
meta-directive extraction, block removal, sub-page extraction, embed
resolution and embedded-source-file lookup.

Collaborator interfaces (the notionapi source-tree provider, the identifier
normalizer and the file reader/filter of spec §6) are taken as explicit
parameters or modelled as plain data, as documented on each definition.
-/

namespace Books

/-! ### Go string primitives (modelled from the Go standard library) -/

/-- Unicode White_Space code points, as recognized by Go's unicode.IsSpace. -/
def goIsSpace (c : Char) : Bool :=
  [0x09, 0x0A, 0x0B, 0x0C, 0x0D, 0x20, 0x85, 0xA0, 0x1680,
   0x2000, 0x2001, 0x2002, 0x2003, 0x2004, 0x2005, 0x2006, 0x2007,
   0x2008, 0x2009, 0x200A, 0x2028, 0x2029, 0x202F, 0x205F, 0x3000].contains c.toNat

/-- Implementation of strings.TrimSpace: drop Unicode space characters from both
ends of the string. -/
def goTrimSpace (s : String) : String :=
  ⟨((s.data.dropWhile goIsSpace).reverse.dropWhile goIsSpace).reverse⟩

/-- One character of strings.ToLower, restricted to ASCII letters (every
directive key the program compares against is ASCII). -/
def goToLowerChar (c : Char) : Char :=
  if 'A' ≤ c ∧ c ≤ 'Z' then Char.ofNat (c.toNat + 32) else c

/-- Implementation of strings.ToLower (ASCII letters). -/
def goToLower (s : String) : String := ⟨s.data.map goToLowerChar⟩

/-- Splitting loop of strings.Split for a one-character separator, on the
character list. -/
def goSplitChar (sep : Char) : List Char → List (List Char)
  | [] => [[]]
  | c :: rest =>
    match goSplitChar sep rest with
    | [] => [[]]
    | g :: gs => if c = sep then [] :: g :: gs else (c :: g) :: gs

/-- Implementation of strings.Split(s, sep) for a one-character separator. -/
def goSplit (s : String) (sep : Char) : List String :=
  (goSplitChar sep s.data).map (fun cs => ⟨cs⟩)

/-- Implementation of strings.SplitN(s, ":", 2): split at the first colon; a
string with no colon stays in one piece. -/
def goSplitN2Colon (s : String) : List String :=
  match s.data.dropWhile (fun c => c ≠ ':') with
  | [] => [s]
  | _ :: rest => [⟨s.data.takeWhile (fun c => c ≠ ':')⟩, ⟨rest⟩]

/-- Implementation of strings.HasPrefix. -/
def hasPre (pre s : String) : Bool := pre.data.isPrefixOf s.data

/-- Implementation of strings.TrimPrefix(s, pre). -/
def trimPre (s pre : String) : String :=
  if hasPre pre s then ⟨s.data.drop pre.data.length⟩ else s

/-! ### Data model (Source Tree Provider collaborator, spec §6) -/

/-- Block type tag notionapi.BlockText. -/
def blockText : String := "text"

/-- Block type tag notionapi.BlockPage. -/
def blockPage : String := "page"

/-- Block type tag notionapi.BlockEmbed. -/
def blockEmbed : String := "embed"

/-- One inline run of a text block. The isPlain field is the collaborator's
IsPlain test (no formatting attributes on the run), carried as a bit. -/
structure InlineBlock where
  text : String
  isPlain : Bool
deriving DecidableEq, Repr

/-- A content block as supplied by the Source Tree Provider: type tag, inline
runs, referenced node identifier (Block.ID), and the embed display-source
string (Block.FormatEmbed.DisplaySource, empty on non-embed blocks). -/
structure Block where
  type : String
  inlineContent : List InlineBlock
  id : String
  displaySource : String
deriving DecidableEq, Repr

/-- A raw source node (notionapi.Page): its identifier and its root block's
title, type tag, ordered content and parallel content-identifier list. -/
structure NotionPage where
  id : String
  title : String
  rootType : String
  rootContent : List Block
  rootContentIDs : List String
deriving DecidableEq, Repr

/-- Modelled from the spec: EmbeddedSourceFile (§3) is declared outside the
sources at hand; per the spec it carries EmbedURL (the original reference
string), FileName and Path (resolved names, empty when resolution failed),
Lines (the filtered file content) and the FileExists flag. -/
structure EmbeddedSourceFile where
  EmbedURL : String := ""
  FileName : String := ""
  Path : String := ""
  Lines : List String := []
  FileExists : Bool := false
deriving DecidableEq, Repr

/-- The output Page node. Only the fields the verified operations read or
write are modelled (Title, BodyHTML, Parent, Siblings and the sub-page list
are written elsewhere and never read by them). -/
structure Page where
  ID : String := ""
  StackOverflowID : String := ""
  Search : List String := []
  SourceFiles : List EmbeddedSourceFile := []
deriving DecidableEq, Repr

/-! ### findSourceFileForEmbedURL -/

/-- Scanning loop of findSourceFileForEmbedURL over the SourceFiles list: the
first entry whose EmbedURL matches decides the result (it when FileExists,
nil otherwise); Go's nil pointer is Option.none. -/
def findSourceFileForEmbedURLGo : List EmbeddedSourceFile → String → Option EmbeddedSourceFile
  | [], _ => none
  | f :: rest, uri =>
    if f.EmbedURL = uri then
      if f.FileExists then some f else none
    else findSourceFileForEmbedURLGo rest uri

/-- Implementation of findSourceFileForEmbedURL(page, uri). -/
def findSourceFileForEmbedURL (page : Page) (uri : String) : Option EmbeddedSourceFile :=
  findSourceFileForEmbedURLGo page.SourceFiles uri

/-! ### removeBlocks -/

/-- Compaction loop of removeBlocks on one list: walk the elements with their
indices, dropping those marked in toRemove and keeping the rest in order
(the in-place copy blocks[n] = el; n++ of the Go code, followed by the
truncation to blocks[:n]). -/
def removeIdx (toRemove : Nat → Bool) : Nat → List α → List α
  | _, [] => []
  | i, x :: xs =>
    if toRemove i then removeIdx toRemove (i + 1) xs
    else x :: removeIdx toRemove (i + 1) xs

/-- Implementation of removeBlocks(page, toRemove): remove the blocks whose
indexes are marked, running the same compaction loop over Root.Content and
over the parallel Root.ContentIDs list. Content is truncated to the
survivors (blocks[:n]); ContentIDs is NOT: the final assignment writes the
compacted slice back without [:n], so the identifier list keeps its
original length — the survivors at the front, followed by the original
entries from position n on (the in-place copies only write indexes below
n). The Go map toRemove is its membership predicate (absent keys read
false); the early return on an empty map is observationally the compaction
itself (nothing is dropped and the stale tail is empty). -/
def removeBlocks (np : NotionPage) (toRemove : Nat → Bool) : NotionPage :=
  let ids := removeIdx toRemove 0 np.rootContentIDs
  { np with
    rootContent := removeIdx toRemove 0 np.rootContent
    rootContentIDs := ids ++ np.rootContentIDs.drop ids.length }

/-! ### Meta-value extraction -/

/-- MetaValue represents a single key: value meta-value. -/
structure MetaValue where
  Key : String
  Value : String
deriving DecidableEq, Repr

/-- Implementation of extractMetaValueFromBlock: nil unless the block is a
text block whose inline content is a single plain run which, after trimming,
has length at least 4 (Go len counts UTF-8 bytes), starts with a dollar sign
and contains a colon; then the trimmed text splits at the first colon into a
lower-cased trimmed key and a trimmed value. -/
def extractMetaValueFromBlock (block : Block) : Option MetaValue :=
  if block.type ≠ blockText then none
  else
    match block.inlineContent with
    | [inl] =>
      if ¬ inl.isPlain then none
      else
        let s := goTrimSpace inl.text
        if s.utf8ByteSize < 4 then none
        else if s.data.head? ≠ some '$' then none
        else
          match goSplitN2Colon s with
          | [k, v] => some ⟨goToLower (goTrimSpace k), goTrimSpace v⟩
          | _ => none
    | _ => none

/-! ### extractMeta -/

/-- Per-key switch of extractMeta's loop body: assign ID / StackOverflowID /
Search, ignore a score directive, and panic on any other key with the
message of panicIf(true, "unknown key '%s' in page with id %s", mv.Key,
normalizeID(page.ID)); nid is that already-normalized page identifier and
the error value is Go's panic. -/
def applyMetaValue (nid : String) (p : Page) (mv : MetaValue) : Except String Page :=
  if mv.Key = "$id" then .ok { p with ID := mv.Value }
  else if mv.Key = "$soid" then .ok { p with StackOverflowID := mv.Value }
  else if mv.Key = "$search" then
    .ok { p with Search := (goSplit mv.Value ',').map goTrimSpace }
  else if mv.Key = "$score" then .ok p
  else .error ("unknown key '" ++ mv.Key ++ "' in page with id " ++ nid)

/-- Scanning loop of extractMeta: visit the blocks in order with their index,
skip the ones carrying no meta value, and for each meta-value block record
its index for removal and apply the key switch; a panic aborts the loop.
(The loop also nils out Content[idx]; exactly those indexes are excised by
the removeBlocks call that follows, so the nil write is unobservable and
not modelled.) -/
def extractMetaCore (nid : String) : Nat → List Block → Page → List Nat →
    Except String (Page × List Nat)
  | _, [], p, acc => .ok (p, acc)
  | i, b :: rest, p, acc =>
    match extractMetaValueFromBlock b with
    | none => extractMetaCore nid (i + 1) rest p acc
    | some mv =>
      match applyMetaValue nid p mv with
      | .error e => .error e
      | .ok p' => extractMetaCore nid (i + 1) rest p' (acc ++ [i])

/-- Implementation of extractMeta(p): run the scanning loop over the notion
page's root content, then excise the recorded indexes (and the parallel
ContentIDs entries) with removeBlocks. The Identifier Normalizer
collaborator (normalizeID, defined outside the sources at hand, spec §6)
enters as the already-normalized page identifier nid. -/
def extractMeta (nid : String) (p : Page) (np : NotionPage) :
    Except String (Page × NotionPage) :=
  match extractMetaCore nid 0 np.rootContent p [] with
  | .error e => .error e
  | .ok (p', acc) => .ok (p', removeBlocks np (fun i => decide (i ∈ acc)))

/-- Indexes of the meta-value blocks of a list, counting from i: the removal
set extractMeta's loop accumulates. -/
def metaIdx : Nat → List Block → List Nat
  | _, [] => []
  | i, b :: rest =>
    if (extractMetaValueFromBlock b).isSome then i :: metaIdx (i + 1) rest
    else metaIdx (i + 1) rest

/-! ### getSubPages -/

/-- Scanning loop of getSubPages: skip non-page-link blocks; for each
page-link block record its index for removal, normalize its identifier and
look it up in pageIDToPage; a missing mapping is the panic
panicIf(subPage == nil, "no sub page for id %s", id), and a found node is
appended to the result in block order. -/
def getSubPagesCore (normalizeID : String → String)
    (pageIDToPage : String → Option NotionPage) :
    Nat → List Block → List NotionPage → List Nat →
    Except String (List NotionPage × List Nat)
  | _, [], res, acc => .ok (res, acc)
  | i, b :: rest, res, acc =>
    if b.type ≠ blockPage then
      getSubPagesCore normalizeID pageIDToPage (i + 1) rest res acc
    else
      match pageIDToPage (normalizeID b.id) with
      | none => .error ("no sub page for id " ++ normalizeID b.id)
      | some sp =>
        getSubPagesCore normalizeID pageIDToPage (i + 1) rest (res ++ [sp]) (acc ++ [i])

/-- Implementation of getSubPages(page, pageIDToPage): run the scanning loop,
then excise the page-link blocks (and parallel ContentIDs entries) with
removeBlocks; pageIDToPage is the global identifier-to-node mapping (a Go
map whose missed lookups are nil, hence Option), normalizeID the Identifier
Normalizer collaborator. -/
def getSubPages (normalizeID : String → String)
    (pageIDToPage : String → Option NotionPage) (np : NotionPage) :
    Except String (List NotionPage × NotionPage) :=
  match getSubPagesCore normalizeID pageIDToPage 0 np.rootContent [] [] with
  | .error e => .error e
  | .ok (res, acc) => .ok (res, removeBlocks np (fun i => decide (i ∈ acc)))

/-! ### URL parsing (modelled from Go's net/url on the ASCII URLs the
resolver handles) -/

/-- The parts of a parsed URL the resolver reads (net/url's URL struct
restricted to Scheme, Host, Path and RawQuery; an opaque rootless URL has
empty host and path). -/
structure GoURL where
  scheme : String := ""
  host : String := ""
  path : String := ""
  rawQuery : String := ""
deriving DecidableEq, Repr

/-- Hex digit value (net/url's unhex). -/
def unhex (c : Char) : Option Nat :=
  if '0' ≤ c ∧ c ≤ '9' then some (c.toNat - '0'.toNat)
  else if 'a' ≤ c ∧ c ≤ 'f' then some (c.toNat - 'a'.toNat + 10)
  else if 'A' ≤ c ∧ c ≤ 'F' then some (c.toNat - 'A'.toNat + 10)
  else none

/-- Percent-decoding loop of net/url's unescape on ASCII text: a %XX escape
becomes the character with that code, '+' becomes a space in query mode, and
a malformed escape is a parse error (none). Multi-byte UTF-8 escape
sequences are outside the ASCII inputs handled here. -/
def percentDecode (plusToSpace : Bool) : List Char → Option (List Char)
  | [] => some []
  | '%' :: h1 :: h2 :: rest => do
    let v1 ← unhex h1
    let v2 ← unhex h2
    let tail ← percentDecode plusToSpace rest
    some (Char.ofNat (16 * v1 + v2) :: tail)
  | '%' :: _ => none
  | c :: rest => do
    let tail ← percentDecode plusToSpace rest
    some ((if plusToSpace ∧ c = '+' then ' ' else c) :: tail)

/-- Loop of net/url's getScheme over the characters with their position: a
letter continues; a digit, plus, minus or dot continues unless it is first
(then there is no scheme); a colon first is the missing-protocol-scheme
parse error (none) and otherwise ends the scheme; any other character means
no scheme. -/
def getSchemeLoop (orig : String) : Nat → List Char → Option (String × String)
  | _, [] => some ("", orig)
  | i, c :: rest =>
    if ('a' ≤ c ∧ c ≤ 'z') ∨ ('A' ≤ c ∧ c ≤ 'Z') then
      getSchemeLoop orig (i + 1) rest
    else if ('0' ≤ c ∧ c ≤ '9') ∨ c = '+' ∨ c = '-' ∨ c = '.' then
      if i = 0 then some ("", orig) else getSchemeLoop orig (i + 1) rest
    else if c = ':' then
      if i = 0 then none
      else some (goToLower ⟨orig.data.take i⟩, ⟨orig.data.drop (i + 1)⟩)
    else some ("", orig)

/-- Implementation of net/url's getScheme. -/
def getScheme (s : String) : Option (String × String) := getSchemeLoop s 0 s.data

/-- net/url's split(s, c, cutc): the part before the first occurrence of c,
and the rest with c cut away or kept. -/
def cutChar (cutc : Bool) (c : Char) (s : String) : String × String :=
  match s.data.dropWhile (fun x => x ≠ c) with
  | [] => (s, "")
  | _ :: rest =>
    (⟨s.data.takeWhile (fun x => x ≠ c)⟩, if cutc then ⟨rest⟩ else ⟨c :: rest⟩)

/-- Host-character check of net/url's parseHost for a registered name: the
unreserved characters plus the sub-delims Go leaves unescaped in a host;
anything else (a space, a slash, a control byte — and, in this ASCII model,
a percent escape) fails the parse. -/
def validHostChar (c : Char) : Bool :=
  decide (('a' ≤ c ∧ c ≤ 'z') ∨ ('A' ≤ c ∧ c ≤ 'Z') ∨ ('0' ≤ c ∧ c ≤ '9')) ||
  ['-', '_', '.', '~', '!', '$', '&', '\'', '(', ')', '*', '+', ',', ';', '=',
   ':', '[', ']', '<', '>', '"'].contains c

/-- net/url's parseAuthority: the host is everything after the last '@'
(userinfo validation is outside the inputs modelled) and must pass the
host-character check. -/
def parseAuthority (authority : String) : Option String :=
  let host := (authority.data.reverse.takeWhile (fun c => c ≠ '@')).reverse
  if host.all validHostChar then some ⟨host⟩ else none

/-- Model of net/url's Parse for the fragmentless ASCII URLs the resolver
handles: reject control bytes; split off the fragment; extract the scheme (a
leading colon is the missing-protocol-scheme error); split off the raw query
at the first '?'; then a rootless rest is opaque under a scheme (and a
colon in its first segment is an error without one), an authority after
"//" must pass host validation, and the path is percent-decoded. A none is
Go's (nil, err) return; the single-trailing-'?' ForceQuery special case is
outside the inputs handled. -/
def urlParse (rawURL : String) : Option GoURL :=
  if rawURL.data.any (fun c => decide (c.toNat < 0x20) || decide (c.toNat = 0x7F)) then
    none
  else
    let (u, frag) := cutChar true '#' rawURL
    match percentDecode false frag.data with
    | none => none
    | some _ =>
      match getScheme u with
      | none => none
      | some (scheme, afterScheme) =>
        let (rest, rawQuery) := cutChar true '?' afterScheme
        if ¬ hasPre "/" rest ∧ scheme ≠ "" then
          some { scheme := scheme, rawQuery := rawQuery }
        else if ¬ hasPre "/" rest ∧ rest ≠ "" ∧
            ((cutChar false '/' rest).1.data.contains ':') then
          none
        else if (scheme ≠ "" ∨ ¬ hasPre "///" rest) ∧ hasPre "//" rest then
          let (authority, rest2) := cutChar false '/' ⟨rest.data.drop 2⟩
          match parseAuthority authority with
          | none => none
          | some host =>
            match percentDecode false rest2.data with
            | none => none
            | some path =>
              some { scheme := scheme, host := host, path := ⟨path⟩, rawQuery := rawQuery }
        else
          match percentDecode false rest.data with
          | none => none
          | some path => some { scheme := scheme, path := ⟨path⟩, rawQuery := rawQuery }

/-- Implementation of url.QueryUnescape on ASCII text ('+' is a space). -/
def queryUnescape (s : String) : Option String :=
  (percentDecode true s.data).map (fun cs => (⟨cs⟩ : String))

/-- Loop of url.ParseQuery feeding Values.Get(key): walk the '&'-separated
pairs in order; a pair containing a semicolon, an empty pair, or a pair
whose key or value fails query-unescaping is skipped; the first surviving
pair whose decoded key matches yields its decoded value. -/
def queryGetLoop (key : String) : List String → String
  | [] => ""
  | pair :: rest =>
    if pair.data.contains ';' ∨ pair = "" then queryGetLoop key rest
    else
      let (k, v) := cutChar true '=' pair
      match queryUnescape k, queryUnescape v with
      | some k', some v' => if k' = key then v' else queryGetLoop key rest
      | _, _ => queryGetLoop key rest

/-- Implementation of URL.Query().Get(key) (Get returns "" when the key is
absent). -/
def queryGet (rawQuery key : String) : String :=
  queryGetLoop key (goSplit rawQuery '&')

/-! ### Embed resolution -/

/-- Implementation of gitoembedToRelativePath(uri): decode a viewer-wrapper
URL into a repository-relative path, the empty string when the URL does not
conform. The second url.Parse call ignores its error and unconditionally
dereferences the possibly-nil result (parsed.Host), so an inner url query
parameter that fails to parse is a runtime nil-pointer panic — the error
case of the result. -/
def gitoembedToRelativePath (uri : String) : Except String String :=
  match urlParse uri with
  | none => .ok ""
  | some parsed =>
    if parsed.host = "www.onlinetool.io" ∨ parsed.host = "onlinetool.io" then
      if parsed.path ≠ "/gitoembed/widget" then .ok ""
      else
        match urlParse (queryGet parsed.rawQuery "url") with
        | none => .error "runtime error: invalid memory address or nil pointer dereference"
        | some parsed2 =>
          if parsed2.host ≠ "github.com" then .ok ""
          else
            let path := trimPre parsed2.path "/essentialbooks/books/"
            if path = parsed2.path then .ok ""
            else .ok (trimPre (trimPre (trimPre path "blob/") "master/") "notion/")
    else .ok ""

/-- Implementation of filepath.Base for slash-separated paths (no Windows
volume names): strip trailing slashes and take the last element, with "."
for the empty path and "/" when the path was all slashes. -/
def filepathBase (path : String) : String :=
  if path = "" then "."
  else
    let cs := path.data.reverse.dropWhile (fun c => c = '/')
    let base := cs.takeWhile (fun c => c ≠ '/')
    if base = [] then "/" else ⟨base.reverse⟩

/-- filepath.Join of the working directory and a relative path; the lexical
Clean normalization is not modelled, since no verified property reads the
joined path's text. -/
def filepathJoin (wd rel : String) : String := wd ++ "/" ++ rel

/-- Loop body of extractEmbeddedSourceFiles for one embed block: the entry
starts as {EmbedURL: uri}; an unresolvable URL leaves it at that (the
diagnostic print has no modelled effect); otherwise FileName and Path are
filled in and the file is read through the File Reader/Filter collaborator
(readFilteredSourceFile, defined outside the sources at hand, spec §6) — a
failed read leaves FileExists false, a successful one sets Lines and
FileExists. A panic inside the URL resolver propagates. -/
def processEmbedBlock (readFile : String → Except String (List String))
    (wd uri : String) : Except String EmbeddedSourceFile :=
  match gitoembedToRelativePath uri with
  | .error e => .error e
  | .ok relativePath =>
    if relativePath = "" then .ok { EmbedURL := uri }
    else
      let path := filepathJoin wd relativePath
      match readFile path with
      | .error _ => .ok { EmbedURL := uri, FileName := filepathBase relativePath, Path := path }
      | .ok lines =>
        .ok { EmbedURL := uri, FileName := filepathBase relativePath, Path := path,
              Lines := lines, FileExists := true }

/-- Scanning loop of extractEmbeddedSourceFiles: non-embed blocks are
skipped and each embed block appends exactly one entry; in the source the
entry is appended before resolution is attempted, so on a resolver panic
the process dies with the partial list never observed (the error case). -/
def extractEmbeddedSourceFilesCore (readFile : String → Except String (List String))
    (wd : String) : List Block → List EmbeddedSourceFile →
    Except String (List EmbeddedSourceFile)
  | [], acc => .ok acc
  | b :: rest, acc =>
    if b.type ≠ blockEmbed then extractEmbeddedSourceFilesCore readFile wd rest acc
    else
      match processEmbedBlock readFile wd b.displaySource with
      | .error e => .error e
      | .ok f => extractEmbeddedSourceFilesCore readFile wd rest (acc ++ [f])

/-- Implementation of extractEmbeddedSourceFiles(p): wd is os.Getwd()
(assumed to succeed — its panicIfErr guard concerns the process
environment, not the inputs), readFile the File Reader/Filter
collaborator. -/
def extractEmbeddedSourceFiles (readFile : String → Except String (List String))
    (wd : String) (p : Page) (np : NotionPage) : Except String Page :=
  match extractEmbeddedSourceFilesCore readFile wd np.rootContent p.SourceFiles with
  | .error e => .error e
  | .ok files => .ok { p with SourceFiles := files }

/-! ### Sample inputs for concrete instantiations -/

/-- A three-block page with a parallel identifier list, for exercising
removeBlocks. -/
def sampleNp : NotionPage :=
  ⟨"id0", "t", "page",
   [⟨"text", [], "b0", ""⟩, ⟨"text", [], "b1", ""⟩, ⟨"text", [], "b2", ""⟩],
   ["a", "b", "c"]⟩

/-- A page whose content is a single id directive block. -/
def sampleIdNp : NotionPage :=
  ⟨"id0", "t", "page", [⟨"text", [⟨"$id: 59", true⟩], "b0", ""⟩], ["c0"]⟩

/-- The booleans.go viewer-wrapper URL of the spec's example. -/
def sampleEmbedURL : String :=
  "https://onlinetool.io/gitoembed/widget?url=https%3A%2F%2Fgithub.com%2Fessentialbooks%2Fbooks%2Fblob%2Fmaster%2Fbooks%2Fgo%2F0020-basic-types%2Fbooleans.go"

/-- A page whose single block is a dollar directive with no colon. -/
def sampleNoColonNp : NotionPage :=
  ⟨"id0", "t", "page", [⟨"text", [⟨"$abc", true⟩], "b0", ""⟩], ["c0"]⟩

/-- A second no-colon directive page, with surrounding whitespace. -/
def sampleNoColon2Np : NotionPage :=
  ⟨"id1", "t", "page", [⟨"text", [⟨"  $nocolon  ", true⟩], "b0", ""⟩], ["c0"]⟩

/-- A page whose single block is an unknown directive. -/
def sampleBogusNp : NotionPage :=
  ⟨"id0", "t", "page", [⟨"text", [⟨"$bogus: x", true⟩], "b0", ""⟩], ["c0"]⟩

/-- A page whose single block is a search directive. -/
def sampleSearchNp : NotionPage :=
  ⟨"id0", "t", "page", [⟨"text", [⟨"$search: a, b , c", true⟩], "b0", ""⟩], ["c0"]⟩

/-- A sub-page node and a page with one page-link block and one text block. -/
def sampleSubNp : NotionPage :=
  ⟨"id0", "t", "page", [⟨"page", [], "pid1", ""⟩, ⟨"text", [], "b1", ""⟩], ["c0", "c1"]⟩

/-- The node sampleSubNp's page-link block refers to. -/
def sampleChildNp : NotionPage := ⟨"pid1", "s", "page", [], []⟩

/-- A page with one non-conforming embed block and one text block. -/
def sampleEmbedNp : NotionPage :=
  ⟨"id0", "t", "page", [⟨"embed", [], "", "x"⟩, ⟨"text", [], "b1", ""⟩], ["c0", "c1"]⟩

/-- A page whose first embed block carries the panic-inducing viewer URL and
whose second embed block is ordinary. -/
def sampleBadEmbedNp : NotionPage :=
  ⟨"id0", "t", "page",
   [⟨"embed", [], "", "https://onlinetool.io/gitoembed/widget?url=%3A%2F%2Fx"⟩,
    ⟨"embed", [], "", "x"⟩],
   ["c0", "c1"]⟩

/-! ### Properties of removeIdx and removeBlocks -/

theorem removeIdx_sublist (t : Nat → Bool) :
    ∀ (l : List α) (i : Nat), (removeIdx t i l).Sublist l
  | [], _ => by simp [removeIdx]
  | x :: xs, i => by
    simp only [removeIdx]
    split
    · exact (removeIdx_sublist t xs (i + 1)).cons x
    · exact (removeIdx_sublist t xs (i + 1)).cons₂ x

theorem removeIdx_length_add (t : Nat → Bool) :
    ∀ (l : List α) (i : Nat),
      (removeIdx t i l).length + (List.range' i l.length).countP t = l.length
  | [], i => by simp [removeIdx]
  | x :: xs, i => by
    have ih := removeIdx_length_add t xs (i + 1)
    simp only [removeIdx, List.length_cons, List.range'_succ, List.countP_cons]
    split
    · omega
    · simp only [List.length_cons]
      omega

theorem removeIdx_zip (t : Nat → Bool) :
    ∀ (l₁ : List α) (l₂ : List β) (i : Nat), l₁.length = l₂.length →
      (removeIdx t i l₁).zip (removeIdx t i l₂) = removeIdx t i (l₁.zip l₂)
  | [], l₂, i, _ => by simp [removeIdx]
  | x :: xs, [], i, h => by simp at h
  | x :: xs, y :: ys, i, h => by
    have ih := removeIdx_zip t xs ys (i + 1) (by simpa using h)
    cases ht : t i <;> simp [removeIdx, ht, ih] <;> simp [List.zip]

theorem removeIdx_length_eq (t : Nat → Bool) (l₁ : List α) (l₂ : List β) (i : Nat)
    (h : l₁.length = l₂.length) :
    (removeIdx t i l₁).length = (removeIdx t i l₂).length := by
  have h₁ := removeIdx_length_add t l₁ i
  have h₂ := removeIdx_length_add t l₂ i
  rw [h] at h₁
  omega

theorem zip_append_stale : ∀ (l₁ : List α) (l₂ l₃ : List β),
    l₁.length = l₂.length → l₁.zip (l₂ ++ l₃) = l₁.zip l₂
  | [], _, _, _ => rfl
  | x :: xs, [], l₃, h => by simp at h
  | x :: xs, y :: ys, l₃, h => by
    simp only [List.cons_append, List.zip_cons_cons]
    rw [zip_append_stale xs ys l₃ (by simpa using h)]

/-- C1 counterexample: removing index 1 of three blocks leaves two blocks
but three identifiers — the compacted survivors at the front and a stale
copy of the last identifier left behind — so the block list and the
identifier list do not end up the same length. -/
theorem removeBlocks_ids_not_truncated :
    (removeBlocks sampleNp (fun i => decide (i = 1))).rootContent.length = 2 ∧
    (removeBlocks sampleNp (fun i => decide (i = 1))).rootContentIDs = ["a", "c", "c"] ∧
    (removeBlocks sampleNp (fun i => decide (i = 1))).rootContentIDs.length = 3 :=
  ⟨rfl, rfl, rfl⟩

/-- C1 as the code has it: removeBlocks excises exactly the marked indexes
from the block list — its length drops by the number of marked in-range
positions and the survivors keep their relative order — and compacts the
identifier list with the same removal set but without truncating it: the
identifier list keeps its original length, its prefix up to the new block
count is the compacted surviving identifiers (index-aligned with the
surviving blocks, their zip being the removal applied to the zip of the
inputs), and past that prefix the stale original entries remain. -/
theorem removeBlocks_spec (np : NotionPage) (toRemove : Nat → Bool)
    (h : np.rootContent.length = np.rootContentIDs.length) :
    ((removeBlocks np toRemove).rootContent.length =
      np.rootContent.length - (List.range np.rootContent.length).countP toRemove) ∧
    (removeBlocks np toRemove).rootContent.Sublist np.rootContent ∧
    ((removeBlocks np toRemove).rootContentIDs.length = np.rootContentIDs.length) ∧
    ((removeBlocks np toRemove).rootContentIDs.take
        ((removeBlocks np toRemove).rootContent.length) =
      removeIdx toRemove 0 np.rootContentIDs) ∧
    ((removeBlocks np toRemove).rootContent.zip (removeBlocks np toRemove).rootContentIDs =
      removeIdx toRemove 0 (np.rootContent.zip np.rootContentIDs)) ∧
    ((removeBlocks np toRemove).rootContentIDs.drop
        ((removeBlocks np toRemove).rootContent.length) =
      np.rootContentIDs.drop ((removeBlocks np toRemove).rootContent.length)) := by
  have hEq : (removeIdx toRemove 0 np.rootContent).length =
      (removeIdx toRemove 0 np.rootContentIDs).length :=
    removeIdx_length_eq toRemove np.rootContent np.rootContentIDs 0 h
  refine ⟨?_, ?_, ?_, ?_, ?_, ?_⟩
  · show (removeIdx toRemove 0 np.rootContent).length = _
    have := removeIdx_length_add toRemove np.rootContent 0
    rw [List.range_eq_range']
    omega
  · exact removeIdx_sublist toRemove np.rootContent 0
  · show (removeIdx toRemove 0 np.rootContentIDs ++
        np.rootContentIDs.drop (removeIdx toRemove 0 np.rootContentIDs).length).length =
      np.rootContentIDs.length
    have := removeIdx_length_add toRemove np.rootContentIDs 0
    rw [List.length_append, List.length_drop]
    omega
  · show (removeIdx toRemove 0 np.rootContentIDs ++
        np.rootContentIDs.drop (removeIdx toRemove 0 np.rootContentIDs).length).take
        (removeIdx toRemove 0 np.rootContent).length = _
    rw [hEq, List.take_left]
  · show (removeIdx toRemove 0 np.rootContent).zip
        (removeIdx toRemove 0 np.rootContentIDs ++
          np.rootContentIDs.drop (removeIdx toRemove 0 np.rootContentIDs).length) = _
    rw [zip_append_stale _ _ _ hEq]
    exact removeIdx_zip toRemove np.rootContent np.rootContentIDs 0 h
  · show (removeIdx toRemove 0 np.rootContentIDs ++
        np.rootContentIDs.drop (removeIdx toRemove 0 np.rootContentIDs).length).drop
        (removeIdx toRemove 0 np.rootContent).length =
      np.rootContentIDs.drop (removeIdx toRemove 0 np.rootContent).length
    rw [hEq, List.drop_left]

/-- Witness for the amended C1 at a concrete page: removing index 1 from
three blocks leaves two blocks but all three identifier slots. -/
theorem removeBlocks_spec_witness :
    (removeBlocks sampleNp (fun i => decide (i = 1))).rootContent.length = 2 ∧
    (removeBlocks sampleNp (fun i => decide (i = 1))).rootContentIDs.length = 3 :=
  ⟨((removeBlocks_spec sampleNp (fun i => decide (i = 1)) (by decide)).1).trans (by decide),
   ((removeBlocks_spec sampleNp (fun i => decide (i = 1)) (by decide)).2.2.1).trans
     (by decide)⟩

/-! ### C10: findSourceFileForEmbedURL -/

/-- C10: findSourceFileForEmbedURL is decided by the first SourceFiles entry
whose EmbedURL equals the URL — that entry when its FileExists is true and
nil otherwise, later entries never considered — and is nil when no entry
matches. -/
theorem findSourceFileForEmbedURL_first_match (page : Page) (uri : String) :
    findSourceFileForEmbedURL page uri =
      match page.SourceFiles.find? (fun f => f.EmbedURL == uri) with
      | some f => if f.FileExists then some f else none
      | none => none := by
  show findSourceFileForEmbedURLGo page.SourceFiles uri = _
  induction page.SourceFiles with
  | nil => rfl
  | cons f rest ih =>
    cases hb : (f.EmbedURL == uri) with
    | false =>
      have h : ¬ f.EmbedURL = uri := by simpa using hb
      simp only [findSourceFileForEmbedURLGo, if_neg h]
      rw [List.find?_cons, hb]
      exact ih
    | true =>
      have h : f.EmbedURL = uri := by simpa using hb
      simp only [findSourceFileForEmbedURLGo, if_pos h]
      rw [List.find?_cons, hb]

/-! ### C7 and C4: embed URL resolution on concrete inputs -/

set_option maxRecDepth 100000 in
/-- C7: the spec's example viewer-wrapper URL resolves to exactly the
relative path books/go/0020-basic-types/booleans.go. -/
theorem gitoembed_booleans_example :
    gitoembedToRelativePath sampleEmbedURL = .ok "books/go/0020-basic-types/booleans.go" := by
  rfl

/-- C4: a conforming viewer host and widget path whose inner url query
parameter fails to parse (a leading colon is net/url's missing-protocol-
scheme error) makes the resolver dereference the nil result of the
unchecked second url.Parse — a runtime panic, not the empty-path return its
own comment promises. -/
theorem gitoembed_nil_deref_panic :
    gitoembedToRelativePath "https://onlinetool.io/gitoembed/widget?url=%3A%2F%2Fx" =
      .error "runtime error: invalid memory address or nil pointer dereference" := by
  rfl

/-! ### Properties of extractMeta -/

theorem removeIdx_false (t : Nat → Bool) (ht : ∀ j, t j = false) :
    ∀ (l : List α) (i : Nat), removeIdx t i l = l
  | [], _ => rfl
  | x :: xs, i => by
    simp only [removeIdx, ht i, Bool.false_eq_true, if_false]
    exact congrArg (x :: ·) (removeIdx_false t ht xs (i + 1))

theorem removeBlocks_noRemove (np : NotionPage) :
    removeBlocks np (fun i => decide (i ∈ ([] : List Nat))) = np := by
  cases np
  simp [removeBlocks, removeIdx_false (fun _ => false) (fun _ => rfl)]

theorem removeIdx_congr (t t' : Nat → Bool) :
    ∀ (l : List α) (i : Nat), (∀ j, i ≤ j → t j = t' j) →
      removeIdx t i l = removeIdx t' i l
  | [], _, _ => rfl
  | x :: xs, i, h => by
    have hrec := removeIdx_congr t t' xs (i + 1) (fun j hj => h j (by omega))
    simp only [removeIdx]
    rw [h i (Nat.le_refl i), hrec]

theorem metaIdx_ge : ∀ (l : List Block) (i j : Nat), j ∈ metaIdx i l → i ≤ j
  | [], i, j, h => by simp [metaIdx] at h
  | b :: rest, i, j, h => by
    simp only [metaIdx] at h
    by_cases hb : (extractMetaValueFromBlock b).isSome
    · rw [if_pos hb] at h
      rcases List.mem_cons.mp h with rfl | h'
      · exact Nat.le_refl j
      · have := metaIdx_ge rest (i + 1) j h'
        omega
    · rw [if_neg hb] at h
      have := metaIdx_ge rest (i + 1) j h
      omega

theorem removeIdx_metaIdx :
    ∀ (l : List Block) (i : Nat),
      removeIdx (fun j => decide (j ∈ metaIdx i l)) i l =
        l.filter (fun b => (extractMetaValueFromBlock b).isNone)
  | [], i => by simp [removeIdx]
  | b :: rest, i => by
    cases hmv : extractMetaValueFromBlock b with
    | some mv =>
      have hM : metaIdx i (b :: rest) = i :: metaIdx (i + 1) rest := by
        simp [metaIdx, hmv]
      simp only [removeIdx, hM]
      rw [if_pos (by simp)]
      rw [removeIdx_congr (fun j => decide (j ∈ i :: metaIdx (i + 1) rest))
        (fun j => decide (j ∈ metaIdx (i + 1) rest)) rest (i + 1)
        (fun j hj => by
          have hne : ¬ j = i := by omega
          simp [List.mem_cons, hne])]
      rw [removeIdx_metaIdx rest (i + 1)]
      simp [List.filter_cons, hmv]
    | none =>
      have hM : metaIdx i (b :: rest) = metaIdx (i + 1) rest := by
        simp [metaIdx, hmv]
      have hnot : ¬ (i ∈ metaIdx (i + 1) rest) := fun hmem => by
        have := metaIdx_ge rest (i + 1) i hmem
        omega
      simp only [removeIdx, hM]
      rw [if_neg (by simp [hnot])]
      rw [removeIdx_metaIdx rest (i + 1)]
      simp [List.filter_cons, hmv]

theorem extractMetaCore_acc (nid : String) :
    ∀ (l : List Block) (i : Nat) (p : Page) (acc : List Nat) (p' : Page) (acc' : List Nat),
      extractMetaCore nid i l p acc = .ok (p', acc') → acc' = acc ++ metaIdx i l
  | [], i, p, acc, p', acc', h => by
    simp only [extractMetaCore, Except.ok.injEq, Prod.mk.injEq] at h
    simp [metaIdx, ← h.2]
  | b :: rest, i, p, acc, p', acc', h => by
    simp only [extractMetaCore] at h
    cases hmv : extractMetaValueFromBlock b with
    | none =>
      simp only [hmv] at h
      have := extractMetaCore_acc nid rest (i + 1) p acc p' acc' h
      simp [metaIdx, hmv, this]
    | some mv =>
      simp only [hmv] at h
      cases ha : applyMetaValue nid p mv with
      | error e => simp [ha] at h
      | ok p₁ =>
        simp only [ha] at h
        have := extractMetaCore_acc nid rest (i + 1) p₁ (acc ++ [i]) p' acc' h
        simp [metaIdx, hmv, this]

theorem extractMetaCore_none (nid : String) :
    ∀ (l : List Block), (∀ b ∈ l, extractMetaValueFromBlock b = none) →
      ∀ (i : Nat) (p : Page) (acc : List Nat),
        extractMetaCore nid i l p acc = .ok (p, acc)
  | [], _, i, p, acc => by simp [extractMetaCore]
  | b :: rest, h, i, p, acc => by
    have hb := h b (List.mem_cons_self b rest)
    simp only [extractMetaCore, hb]
    exact extractMetaCore_none nid rest (fun b' hb' => h b' (List.mem_cons_of_mem _ hb'))
      (i + 1) p acc

theorem extractMetaCore_seg (nid : String) :
    ∀ (l₁ : List Block), (∀ b ∈ l₁, extractMetaValueFromBlock b = none) →
      ∀ (rest : List Block) (i : Nat) (p : Page) (acc : List Nat),
        extractMetaCore nid i (l₁ ++ rest) p acc =
          extractMetaCore nid (i + l₁.length) rest p acc
  | [], _, rest, i, p, acc => by simp
  | b :: l₁, h, rest, i, p, acc => by
    have hb := h b (List.mem_cons_self b l₁)
    simp only [List.cons_append, extractMetaCore, hb, List.append_eq]
    rw [extractMetaCore_seg nid l₁ (fun b' hb' => h b' (List.mem_cons_of_mem _ hb'))
      rest (i + 1) p acc]
    have harith : i + 1 + l₁.length = i + (b :: l₁).length := by
      simp only [List.length_cons]
      omega
    rw [harith]

theorem applyMetaValue_known (nid : String) (p : Page) (mv : MetaValue)
    (h : mv.Key ∈ ["$id", "$soid", "$search", "$score"]) :
    ∃ p', applyMetaValue nid p mv = .ok p' := by
  simp only [List.mem_cons, List.not_mem_nil, or_false] at h
  rcases h with h | h | h | h
  · exact ⟨{ p with ID := mv.Value }, by unfold applyMetaValue; rw [h, if_pos rfl]⟩
  · exact ⟨{ p with StackOverflowID := mv.Value }, by
      unfold applyMetaValue; rw [h, if_neg (by decide), if_pos rfl]⟩
  · exact ⟨{ p with Search := (goSplit mv.Value ',').map goTrimSpace }, by
      unfold applyMetaValue; rw [h, if_neg (by decide), if_neg (by decide), if_pos rfl]⟩
  · exact ⟨p, by
      unfold applyMetaValue
      rw [h, if_neg (by decide), if_neg (by decide), if_neg (by decide), if_pos rfl]⟩

theorem applyMetaValue_unknown (nid : String) (p : Page) (mv : MetaValue)
    (h : mv.Key ∉ ["$id", "$soid", "$search", "$score"]) :
    applyMetaValue nid p mv =
      .error ("unknown key '" ++ mv.Key ++ "' in page with id " ++ nid) := by
  simp only [List.mem_cons, List.not_mem_nil, or_false, not_or] at h
  obtain ⟨h1, h2, h3, h4⟩ := h
  unfold applyMetaValue
  rw [if_neg h1, if_neg h2, if_neg h3, if_neg h4]

/-- C3: a successful Meta Extraction leaves no block satisfying the
directive predicate in the remaining sequence, and a second run on the
result is a no-op: it succeeds and returns the same Page (same ID,
StackOverflowID and Search) and the same block sequence. -/
theorem extractMeta_idempotent (nid : String) (p p' : Page) (np np' : NotionPage)
    (h : extractMeta nid p np = .ok (p', np')) :
    (∀ b ∈ np'.rootContent, extractMetaValueFromBlock b = none) ∧
    extractMeta nid p' np' = .ok (p', np') := by
  have hmain : np'.rootContent =
      np.rootContent.filter (fun b => (extractMetaValueFromBlock b).isNone) := by
    unfold extractMeta at h
    cases hc : extractMetaCore nid 0 np.rootContent p [] with
    | error e => rw [hc] at h; simp at h
    | ok pr =>
      obtain ⟨q, acc⟩ := pr
      rw [hc] at h
      simp only [Except.ok.injEq, Prod.mk.injEq] at h
      obtain ⟨hq, hnp⟩ := h
      have hacc : acc = metaIdx 0 np.rootContent := by
        simpa using extractMetaCore_acc nid np.rootContent 0 p [] q acc hc
      rw [← hnp]
      show removeIdx (fun i => decide (i ∈ acc)) 0 np.rootContent = _
      rw [hacc]
      exact removeIdx_metaIdx np.rootContent 0
  have hnone : ∀ b ∈ np'.rootContent, extractMetaValueFromBlock b = none := by
    intro b hb
    rw [hmain] at hb
    have hmem := List.mem_filter.mp hb
    simpa [Option.isNone_iff_eq_none] using hmem.2
  refine ⟨hnone, ?_⟩
  unfold extractMeta
  rw [extractMetaCore_none nid np'.rootContent hnone 0 p' []]
  show Except.ok (p', removeBlocks np' (fun i => decide (i ∈ ([] : List Nat)))) = _
  rw [removeBlocks_noRemove]

/-- Witness for C3: extracting the single id directive once gives the page
with ID 59 and an empty block sequence (the identifier list keeps its stale
entry, as the code leaves it); extracting again changes nothing. -/
theorem extractMeta_idempotent_witness :
    extractMeta "pid" ⟨"59", "", [], []⟩ ⟨"id0", "t", "page", [], ["c0"]⟩ =
      .ok (⟨"59", "", [], []⟩, ⟨"id0", "t", "page", [], ["c0"]⟩) :=
  (extractMeta_idempotent "pid" {} ⟨"59", "", [], []⟩ sampleIdNp
    ⟨"id0", "t", "page", [], ["c0"]⟩ rfl).2

theorem extractMetaCore_err_first (nid : String) :
    ∀ (l₁ : List Block),
      (∀ b' ∈ l₁, ∀ mv', extractMetaValueFromBlock b' = some mv' →
        mv'.Key ∈ ["$id", "$soid", "$search", "$score"]) →
      ∀ (b : Block) (mv : MetaValue) (l₂ : List Block) (i : Nat) (p : Page) (acc : List Nat),
        extractMetaValueFromBlock b = some mv →
        mv.Key ∉ ["$id", "$soid", "$search", "$score"] →
        extractMetaCore nid i (l₁ ++ b :: l₂) p acc =
          .error ("unknown key '" ++ mv.Key ++ "' in page with id " ++ nid)
  | [], _, b, mv, l₂, i, p, acc, hb, hkey => by
    simp only [List.nil_append, extractMetaCore, hb, applyMetaValue_unknown nid p mv hkey]
  | b' :: l₁, hpre, b, mv, l₂, i, p, acc, hb, hkey => by
    have htail := fun b'' hb'' => hpre b'' (List.mem_cons_of_mem b' hb'')
    cases hmv' : extractMetaValueFromBlock b' with
    | none =>
      simp only [List.cons_append, extractMetaCore, hmv', List.append_eq]
      exact extractMetaCore_err_first nid l₁ htail b mv l₂ (i + 1) p acc hb hkey
    | some mv' =>
      have hk := hpre b' (List.mem_cons_self b' l₁) mv' hmv'
      obtain ⟨p₁, hp₁⟩ := applyMetaValue_known nid p mv' hk
      simp only [List.cons_append, extractMetaCore, hmv', hp₁, List.append_eq]
      exact extractMetaCore_err_first nid l₁ htail b mv l₂ (i + 1) p₁ (acc ++ [i]) hb hkey

theorem extractMetaCore_err_exists (nid : String) :
    ∀ (l : List Block),
      (∃ b ∈ l, ∃ mv, extractMetaValueFromBlock b = some mv ∧
        mv.Key ∉ ["$id", "$soid", "$search", "$score"]) →
      ∀ (i : Nat) (p : Page) (acc : List Nat),
        ∃ e, extractMetaCore nid i l p acc = .error e
  | [], hex, _, _, _ => by simp at hex
  | b :: rest, hex, i, p, acc => by
    cases hmv : extractMetaValueFromBlock b with
    | none =>
      have hex' : ∃ b' ∈ rest, ∃ mv, extractMetaValueFromBlock b' = some mv ∧
          mv.Key ∉ ["$id", "$soid", "$search", "$score"] := by
        obtain ⟨b', hb', mv, hsome, hkey⟩ := hex
        rcases List.mem_cons.mp hb' with rfl | htail
        · rw [hmv] at hsome
          exact absurd hsome (by simp)
        · exact ⟨b', htail, mv, hsome, hkey⟩
      simp only [extractMetaCore, hmv]
      exact extractMetaCore_err_exists nid rest hex' (i + 1) p acc
    | some mv =>
      by_cases hkey : mv.Key ∈ ["$id", "$soid", "$search", "$score"]
      · obtain ⟨p₁, hp₁⟩ := applyMetaValue_known nid p mv hkey
        have hex' : ∃ b' ∈ rest, ∃ mv', extractMetaValueFromBlock b' = some mv' ∧
            mv'.Key ∉ ["$id", "$soid", "$search", "$score"] := by
          obtain ⟨b', hb', mv', hsome, hkey'⟩ := hex
          rcases List.mem_cons.mp hb' with rfl | htail
          · rw [hmv] at hsome
            simp only [Option.some.injEq] at hsome
            rw [← hsome] at hkey'
            exact absurd hkey hkey'
          · exact ⟨b', htail, mv', hsome, hkey'⟩
        simp only [extractMetaCore, hmv, hp₁]
        exact extractMetaCore_err_exists nid rest hex' (i + 1) p₁ (acc ++ [i])
      · exact ⟨"unknown key '" ++ mv.Key ++ "' in page with id " ++ nid,
          by simp only [extractMetaCore, hmv, applyMetaValue_unknown nid p mv hkey]⟩

/-- C5: a directive block whose parsed key is not one of the four recognized
keys makes Meta Extraction abort: whenever the content holds such a block,
extraction returns an error rather than skipping it, and when the block is
the first offender the error is exactly the panic message naming the
offending key and the normalized page identifier. -/
theorem extractMeta_unknown_key_fatal :
    (∀ (nid : String) (p : Page) (np : NotionPage),
      (∃ b ∈ np.rootContent, ∃ mv, extractMetaValueFromBlock b = some mv ∧
        mv.Key ∉ ["$id", "$soid", "$search", "$score"]) →
      ∃ e, extractMeta nid p np = .error e) ∧
    (∀ (nid : String) (p : Page) (np : NotionPage) (l₁ l₂ : List Block)
      (b : Block) (mv : MetaValue),
      np.rootContent = l₁ ++ b :: l₂ →
      (∀ b' ∈ l₁, ∀ mv', extractMetaValueFromBlock b' = some mv' →
        mv'.Key ∈ ["$id", "$soid", "$search", "$score"]) →
      extractMetaValueFromBlock b = some mv →
      mv.Key ∉ ["$id", "$soid", "$search", "$score"] →
      extractMeta nid p np =
        .error ("unknown key '" ++ mv.Key ++ "' in page with id " ++ nid)) := by
  constructor
  · intro nid p np hex
    obtain ⟨e, he⟩ := extractMetaCore_err_exists nid np.rootContent hex 0 p []
    exact ⟨e, by unfold extractMeta; rw [he]⟩
  · intro nid p np l₁ l₂ b mv hcontent hpre hb hkey
    unfold extractMeta
    rw [hcontent, extractMetaCore_err_first nid l₁ hpre b mv l₂ 0 p [] hb hkey]

/-- Witness for C5: the bogus directive aborts extraction with the panic
message naming the key and the page identifier. -/
theorem extractMeta_unknown_key_fatal_witness :
    (∃ e, extractMeta "pid" {} sampleBogusNp = .error e) ∧
    extractMeta "pid" {} sampleBogusNp =
      .error "unknown key '$bogus' in page with id pid" :=
  ⟨extractMeta_unknown_key_fatal.1 "pid" {} sampleBogusNp
    ⟨⟨"text", [⟨"$bogus: x", true⟩], "b0", ""⟩, by simp [sampleBogusNp],
      ⟨"$bogus", "x"⟩, rfl, by decide⟩,
   extractMeta_unknown_key_fatal.2 "pid" {} sampleBogusNp [] []
     ⟨"text", [⟨"$bogus: x", true⟩], "b0", ""⟩ ⟨"$bogus", "x"⟩ rfl
     (by simp) rfl (by decide)⟩

/-! ### C2: a dollar block without a colon -/

/-- C2 counterexample: a plain-text block whose single plain run trims to a
text of length at least 4 that starts with a dollar sign and has no colon is
not fatal on the code: its meta value is nil and Meta Extraction returns
successfully, leaving page and block sequence unchanged. -/
theorem no_colon_block_not_fatal :
    extractMetaValueFromBlock ⟨"text", [⟨"$abc", true⟩], "b0", ""⟩ = none ∧
    extractMeta "pid" {} sampleNoColonNp = .ok ({}, sampleNoColonNp) ∧
    4 ≤ (goTrimSpace "$abc").utf8ByteSize ∧
    (goTrimSpace "$abc").data.head? = some '$' ∧
    (goTrimSpace "$abc").data.contains ':' = false :=
  ⟨rfl, rfl, by decide, rfl, rfl⟩

/-- C2 as the code has it: a text block with a single plain inline run whose
trimmed text has length at least 4, starts with a dollar sign and contains
no colon is not a meta-value block (extractMetaValueFromBlock is nil), and
Meta Extraction on a page holding just that block succeeds with page and
block sequence unchanged — the malformed directive is skipped, not fatal. -/
theorem no_colon_block_skipped (nid : String) (p : Page) (np : NotionPage)
    (b : Block) (inl : InlineBlock)
    (hty : b.type = blockText) (hinl : b.inlineContent = [inl])
    (hplain : inl.isPlain = true)
    (hlen : 4 ≤ (goTrimSpace inl.text).utf8ByteSize)
    (hdollar : (goTrimSpace inl.text).data.head? = some '$')
    (hnocolon : (goTrimSpace inl.text).data.contains ':' = false)
    (hcontent : np.rootContent = [b]) :
    extractMetaValueFromBlock b = none ∧ extractMeta nid p np = .ok (p, np) := by
  have hnomem : (':' : Char) ∉ (goTrimSpace inl.text).data := by
    simpa using hnocolon
  have hsplit : goSplitN2Colon (goTrimSpace inl.text) = [goTrimSpace inl.text] := by
    unfold goSplitN2Colon
    have hdrop : (goTrimSpace inl.text).data.dropWhile (fun c => decide ¬(c = ':')) = [] := by
      rw [List.dropWhile_eq_nil_iff]
      intro x hx
      simp only [decide_eq_true_eq]
      intro hcol
      rw [hcol] at hx
      exact hnomem hx
    rw [hdrop]
  have hmv : extractMetaValueFromBlock b = none := by
    unfold extractMetaValueFromBlock
    rw [if_neg (by simp [hty])]
    simp only [hinl, hplain]
    rw [if_neg (by simp)]
    rw [if_neg (by omega)]
    rw [if_neg (by simp [hdollar])]
    rw [hsplit]
  refine ⟨hmv, ?_⟩
  have hnone : ∀ b' ∈ np.rootContent, extractMetaValueFromBlock b' = none := by
    intro b' hb'
    rw [hcontent] at hb'
    simp only [List.mem_singleton] at hb'
    rw [hb']
    exact hmv
  unfold extractMeta
  rw [extractMetaCore_none nid np.rootContent hnone 0 p []]
  show Except.ok (p, removeBlocks np (fun i => decide (i ∈ ([] : List Nat)))) = _
  rw [removeBlocks_noRemove]

/-- Witness for the amended C2 at a concrete block with surrounding
whitespace. -/
theorem no_colon_block_skipped_witness :
    extractMetaValueFromBlock ⟨"text", [⟨"  $nocolon  ", true⟩], "b0", ""⟩ = none ∧
    extractMeta "w" {} sampleNoColon2Np = .ok ({}, sampleNoColon2Np) :=
  no_colon_block_skipped "w" {} sampleNoColon2Np
    ⟨"text", [⟨"  $nocolon  ", true⟩], "b0", ""⟩ ⟨"  $nocolon  ", true⟩
    rfl rfl rfl (by decide) rfl rfl rfl

/-! ### C8: the search directive -/

/-- C8: a search directive among otherwise non-directive blocks sets the
page's Search list to the comma-split of its value with every entry
whitespace-trimmed, in original order. -/
theorem extractMeta_search_split (nid : String) (p : Page) (np : NotionPage)
    (l₁ l₂ : List Block) (b : Block) (v : String)
    (hcontent : np.rootContent = l₁ ++ b :: l₂)
    (hpre : ∀ b' ∈ l₁, extractMetaValueFromBlock b' = none)
    (hpost : ∀ b' ∈ l₂, extractMetaValueFromBlock b' = none)
    (hb : extractMetaValueFromBlock b = some ⟨"$search", v⟩) :
    ∃ np', extractMeta nid p np =
      .ok ({ p with Search := (goSplit v ',').map goTrimSpace }, np') := by
  unfold extractMeta
  rw [hcontent, extractMetaCore_seg nid l₁ hpre (b :: l₂) 0 p []]
  have happ : applyMetaValue nid p ⟨"$search", v⟩ =
      .ok { p with Search := (goSplit v ',').map goTrimSpace } := by
    unfold applyMetaValue
    rw [if_neg (show ¬ ("$search" : String) = "$id" by decide),
      if_neg (show ¬ ("$search" : String) = "$soid" by decide), if_pos rfl]
  simp only [extractMetaCore, hb, happ]
  rw [extractMetaCore_none nid l₂ hpost]
  exact ⟨_, rfl⟩

/-- Witness for C8: the spec's example search directive yields the trimmed
three-element list. -/
theorem extractMeta_search_split_witness :
    ∃ np', extractMeta "pid" {} sampleSearchNp =
      .ok ({ ID := "", StackOverflowID := "", Search := ["a", "b", "c"],
             SourceFiles := [] }, np') :=
  extractMeta_search_split "pid" {} sampleSearchNp [] []
    ⟨"text", [⟨"$search: a, b , c", true⟩], "b0", ""⟩ "a, b , c"
    rfl (by simp) (by simp) rfl

/-! ### C6: getSubPages -/

theorem getSubPagesCore_ok (n : String → String) (m : String → Option NotionPage) :
    ∀ (l : List Block),
      (∀ b ∈ l, b.type = blockPage → (m (n b.id)).isSome) →
      ∀ (i : Nat) (res : List NotionPage) (acc : List Nat),
        ∃ acc', getSubPagesCore n m i l res acc =
          .ok (res ++ l.filterMap
            (fun b => if b.type = blockPage then m (n b.id) else none), acc')
  | [], _, i, res, acc => ⟨acc, by simp [getSubPagesCore]⟩
  | b :: rest, hall, i, res, acc => by
    have htail := fun b' hb' => hall b' (List.mem_cons_of_mem b hb')
    by_cases hty : b.type = blockPage
    · have hsome := hall b (List.mem_cons_self b rest) hty
      cases hm : m (n b.id) with
      | none => rw [hm] at hsome; simp at hsome
      | some sp =>
        obtain ⟨acc', hacc'⟩ :=
          getSubPagesCore_ok n m rest htail (i + 1) (res ++ [sp]) (acc ++ [i])
        refine ⟨acc', ?_⟩
        simp only [getSubPagesCore]
        rw [if_neg (by simp [hty])]
        simp only [hm, hacc']
        simp [List.filterMap_cons, hty, hm]
    · obtain ⟨acc', hacc'⟩ := getSubPagesCore_ok n m rest htail (i + 1) res acc
      refine ⟨acc', ?_⟩
      simp only [getSubPagesCore]
      rw [if_pos hty]
      rw [hacc']
      simp [List.filterMap_cons, hty]

theorem getSubPagesCore_err (n : String → String) (m : String → Option NotionPage) :
    ∀ (l₁ : List Block),
      (∀ b' ∈ l₁, b'.type = blockPage → (m (n b'.id)).isSome) →
      ∀ (b : Block) (l₂ : List Block) (i : Nat) (res : List NotionPage) (acc : List Nat),
        b.type = blockPage → m (n b.id) = none →
        getSubPagesCore n m i (l₁ ++ b :: l₂) res acc =
          .error ("no sub page for id " ++ n b.id)
  | [], _, b, l₂, i, res, acc, hty, hm => by
    simp only [List.nil_append, getSubPagesCore]
    rw [if_neg (by simp [hty])]
    simp only [hm]
  | b' :: l₁, hpre, b, l₂, i, res, acc, hty, hm => by
    have htail := fun b'' hb'' => hpre b'' (List.mem_cons_of_mem b' hb'')
    by_cases hty' : b'.type = blockPage
    · have hsome := hpre b' (List.mem_cons_self b' l₁) hty'
      cases hm' : m (n b'.id) with
      | none => rw [hm'] at hsome; simp at hsome
      | some sp =>
        simp only [List.cons_append, getSubPagesCore, List.append_eq]
        rw [if_neg (by simp [hty'])]
        simp only [hm']
        exact getSubPagesCore_err n m l₁ htail b l₂ (i + 1) (res ++ [sp]) (acc ++ [i]) hty hm
    · simp only [List.cons_append, getSubPagesCore, List.append_eq]
      rw [if_pos hty']
      exact getSubPagesCore_err n m l₁ htail b l₂ (i + 1) res acc hty hm

/-- C6: when the identifier-to-node mapping covers every page-link block's
normalized identifier, Sub-page Extraction succeeds and returns the mapped
nodes in block order; when a page-link block's normalized identifier has no
mapping (the page-link blocks before it being mapped), it aborts with the
panic message containing the offending identifier. -/
theorem getSubPages_spec :
    (∀ (n : String → String) (m : String → Option NotionPage) (np : NotionPage),
      (∀ b ∈ np.rootContent, b.type = blockPage → (m (n b.id)).isSome) →
      ∃ np', getSubPages n m np =
        .ok (np.rootContent.filterMap
          (fun b => if b.type = blockPage then m (n b.id) else none), np')) ∧
    (∀ (n : String → String) (m : String → Option NotionPage) (np : NotionPage)
      (l₁ l₂ : List Block) (b : Block),
      np.rootContent = l₁ ++ b :: l₂ →
      (∀ b' ∈ l₁, b'.type = blockPage → (m (n b'.id)).isSome) →
      b.type = blockPage → m (n b.id) = none →
      getSubPages n m np = .error ("no sub page for id " ++ n b.id)) := by
  constructor
  · intro n m np hall
    obtain ⟨acc', hacc'⟩ := getSubPagesCore_ok n m np.rootContent hall 0 [] []
    refine ⟨removeBlocks np (fun i => decide (i ∈ acc')), ?_⟩
    unfold getSubPages
    rw [hacc']
    rfl
  · intro n m np l₁ l₂ b hcontent hpre hty hm
    unfold getSubPages
    rw [hcontent, getSubPagesCore_err n m l₁ hpre b l₂ 0 [] [] hty hm]

/-- Witness for C6: the mapped page-link block resolves to its node; the
unmapped one aborts with its identifier in the message. -/
theorem getSubPages_spec_witness :
    (∃ np', getSubPages (fun s => s)
        (fun s => if s = "pid1" then some sampleChildNp else none) sampleSubNp =
      .ok ([sampleChildNp], np')) ∧
    getSubPages (fun s => s) (fun _ => none) sampleSubNp =
      .error "no sub page for id pid1" := by
  constructor
  · obtain ⟨np', h⟩ := getSubPages_spec.1 (fun s => s)
      (fun s => if s = "pid1" then some sampleChildNp else none) sampleSubNp (by decide)
    exact ⟨np', h⟩
  · exact getSubPages_spec.2 (fun s => s) (fun _ => none) sampleSubNp []
      [⟨"text", [], "b1", ""⟩] ⟨"page", [], "pid1", ""⟩ rfl (by simp) rfl rfl

/-! ### C9: embed extraction -/

theorem processEmbedBlock_ok (readFile : String → Except String (List String))
    (wd uri r : String) (h : gitoembedToRelativePath uri = .ok r) :
    ∃ f, processEmbedBlock readFile wd uri = .ok f ∧ f.EmbedURL = uri := by
  unfold processEmbedBlock
  simp only [h]
  by_cases hr : r = ""
  · rw [if_pos hr]
    exact ⟨_, rfl, rfl⟩
  · rw [if_neg hr]
    cases hread : readFile (filepathJoin wd r) with
    | error e => exact ⟨_, rfl, rfl⟩
    | ok lines => exact ⟨_, rfl, rfl⟩

theorem extractEmbeddedSourceFilesCore_ok
    (readFile : String → Except String (List String)) (wd : String) :
    ∀ (l : List Block),
      (∀ b ∈ l, b.type = blockEmbed →
        ∃ r, gitoembedToRelativePath b.displaySource = .ok r) →
      ∀ (acc : List EmbeddedSourceFile),
        ∃ files, extractEmbeddedSourceFilesCore readFile wd l acc = .ok files ∧
          files.map (fun f => f.EmbedURL) =
            acc.map (fun f => f.EmbedURL) ++
              (l.filter (fun b => b.type == blockEmbed)).map (fun b => b.displaySource)
  | [], _, acc => ⟨acc, by simp [extractEmbeddedSourceFilesCore]⟩
  | b :: rest, hok, acc => by
    have htail := fun b' hb' => hok b' (List.mem_cons_of_mem b hb')
    by_cases hty : b.type = blockEmbed
    · obtain ⟨r, hr⟩ := hok b (List.mem_cons_self b rest) hty
      obtain ⟨f, hf, hfurl⟩ := processEmbedBlock_ok readFile wd b.displaySource r hr
      obtain ⟨files, hfiles, hmap⟩ :=
        extractEmbeddedSourceFilesCore_ok readFile wd rest htail (acc ++ [f])
      refine ⟨files, ?_, ?_⟩
      · simp only [extractEmbeddedSourceFilesCore]
        rw [if_neg (by simp [hty])]
        simp only [hf]
        exact hfiles
      · rw [hmap]
        simp [List.filter_cons, hty, hfurl]
    · obtain ⟨files, hfiles, hmap⟩ :=
        extractEmbeddedSourceFilesCore_ok readFile wd rest htail acc
      refine ⟨files, ?_, ?_⟩
      · simp only [extractEmbeddedSourceFilesCore]
        rw [if_pos hty]
        exact hfiles
      · rw [hmap]
        simp [List.filter_cons, hty]

/-- C9 as the code has it: when no embed block's URL makes the resolver
panic, embed extraction succeeds and appends exactly one EmbeddedSourceFile
per embed-type block — resolvable or not, readable or not — in block order,
with non-embed blocks contributing no entry. -/
theorem extractEmbeddedSourceFiles_entries
    (readFile : String → Except String (List String)) (wd : String)
    (p : Page) (np : NotionPage)
    (hok : ∀ b ∈ np.rootContent, b.type = blockEmbed →
      ∃ r, gitoembedToRelativePath b.displaySource = .ok r) :
    ∃ p', extractEmbeddedSourceFiles readFile wd p np = .ok p' ∧
      p'.SourceFiles.map (fun f => f.EmbedURL) =
        p.SourceFiles.map (fun f => f.EmbedURL) ++
          (np.rootContent.filter (fun b => b.type == blockEmbed)).map
            (fun b => b.displaySource) ∧
      p'.SourceFiles.length = p.SourceFiles.length +
        (np.rootContent.filter (fun b => b.type == blockEmbed)).length := by
  obtain ⟨files, hfiles, hmap⟩ :=
    extractEmbeddedSourceFilesCore_ok readFile wd np.rootContent hok p.SourceFiles
  refine ⟨{ p with SourceFiles := files }, ?_, ?_, ?_⟩
  · unfold extractEmbeddedSourceFiles
    rw [hfiles]
  · exact hmap
  · have hlen := congrArg List.length hmap
    simpa using hlen

set_option maxRecDepth 100000 in
/-- C9 counterexample: with two embed blocks whose first URL triggers the
resolver's nil-pointer panic, extraction dies instead of producing one
entry per embed block. -/
theorem embed_panic_loses_entries :
    extractEmbeddedSourceFiles (fun _ => .error "read failed") "/wd" {} sampleBadEmbedNp =
      .error "runtime error: invalid memory address or nil pointer dereference" := by
  rfl

/-- Witness for the amended C9: one non-conforming embed block and one text
block give exactly one SourceFiles entry carrying the embed URL. -/
theorem extractEmbeddedSourceFiles_entries_witness :
    ∃ p', extractEmbeddedSourceFiles (fun _ => Except.ok ["l"]) "/wd" {} sampleEmbedNp =
        .ok p' ∧
      p'.SourceFiles.map (fun f => f.EmbedURL) = ["x"] ∧
      p'.SourceFiles.length = 1 := by
  obtain ⟨p', h1, h2, h3⟩ :=
    extractEmbeddedSourceFiles_entries (fun _ => Except.ok ["l"]) "/wd" {} sampleEmbedNp
      (by
        intro b hb hty
        simp only [sampleEmbedNp, List.mem_cons, List.not_mem_nil, or_false] at hb
        rcases hb with rfl | rfl
        · exact ⟨"", rfl⟩
        · exact absurd hty (by decide))
  exact ⟨p', h1, h2.trans (by decide), h3.trans (by decide)⟩

end Books
